import Mathlib

/-!
Formal model of the GalSim tabulated-function interpolation engine: the
one-dimensional lookup table (`galsim.LookupTable`, spec name `Table1D`) and
the two-dimensional lookup table (`galsim.LookupTable2D`, spec name
`Table2D`).

The repository's implementation of the tables (python `galsim/table.py` and
the C++ `Table` class) is not among the available source files; only its test
suite `tests/test_table.py` is.  The definitions below are therefore modelled
from the specification (sections 3, 4, 6 and 7), with the test suite as the
authority where it pins behaviour down further (notably the default
interpolant, which `tests/test_table.py` line 149 states is `spline`).

Real numbers are modelled by the rationals `ℚ`; the log/exp transforms of the
`x_log`/`f_log` modes, which have no rational realization, are modelled by an
arbitrary transform function `rlog` (respectively `rexp`) that the
construction and evaluation functions take as a parameter, so every theorem
about them holds for every choice of transform.
-/

/-- Modelled from the spec: the error taxonomy of section 7.  `config` is the
`ConfigurationError` of invalid construction arguments, `domain` the
`DomainError` of an out-of-range query, `shape` the `ShapeError` of
incompatible broadcast shapes.  The implementation's error messages are not
modelled. -/
inductive TableError where
  | config : TableError
  | domain : TableError
  | shape : TableError
deriving DecidableEq

/-- Modelled from the spec: the closed set of `Table1D` interpolants
(section 3): linear, natural cubic spline, floor, ceil, nearest. -/
inductive Interp1D where
  | linear : Interp1D
  | spline : Interp1D
  | floor : Interp1D
  | ceil : Interp1D
  | nearest : Interp1D
deriving DecidableEq

/-- First element of the argument grid (the domain minimum). -/
def argMinOf (xs : List ℚ) : ℚ := xs.getD 0 0

/-- Last element of the argument grid (the domain maximum). -/
def argMaxOf (xs : List ℚ) : ℚ := xs.getD (xs.length - 1) 0

/-- Modelled from the spec: the guard band around each domain boundary is a
relative tolerance of `1e-6` (section 4.2). -/
def guardTol : ℚ := 1 / 1000000

/-- Modelled from the spec: the "small relative tolerance" used to decide
whether the argument spacing is uniform (section 4.1). -/
def uniformTol : ℚ := 1 / 1000000

/-- Modelled from the spec: the bounds check of evaluation step 2 (section
4.2), with the guard band of relative tolerance `guardTol` around each
boundary. -/
def inGuardBand (xs : List ℚ) (u : ℚ) : Prop :=
  argMinOf xs - guardTol * |argMinOf xs| ≤ u ∧ u ≤ argMaxOf xs + guardTol * |argMaxOf xs|

instance (xs : List ℚ) (u : ℚ) : Decidable (inGuardBand xs u) := by
  unfold inGuardBand; infer_instance

/-- A query that passed the guard-band check is clamped back into the nominal
domain before the bracketing interval is located. -/
def clampDomain (xs : List ℚ) (u : ℚ) : ℚ :=
  max (argMinOf xs) (min u (argMaxOf xs))

/-- Consecutive differences of the argument grid. -/
def spacings (xs : List ℚ) : List ℚ :=
  List.zipWith (fun a b => b - a) xs xs.tail

/-- Modelled from the spec: `is_uniform` is true iff `max(Δargs) - min(Δargs)`
is within a small relative tolerance of zero (section 4.1). -/
def isUniformB (xs : List ℚ) : Bool :=
  match spacings xs with
  | [] => true
  | d :: ds =>
    let mx := ds.foldl max d
    let mn := ds.foldl min d
    decide (mx - mn ≤ uniformTol * |mx|)

/-- Modelled from the spec: the O(1) bracket location of evaluation step 3 for
uniformly spaced arguments, `i = floor((u - args[0]) / spacing)` clamped to
`[0, N-2]` (section 4.2).  The spacing is the mean spacing
`(args[N-1] - args[0]) / (N-1)`. -/
def uniformIndex (xs : List ℚ) (u : ℚ) : ℕ :=
  let n := xs.length
  let x0 := argMinOf xs
  let h := (argMaxOf xs - x0) / ((n : ℚ) - 1)
  min (⌊(u - x0) / h⌋).toNat (n - 2)

/-- One step of the bisection that locates the bracketing interval: while
`hi - lo > 1`, the midpoint replaces whichever end keeps
`xs[lo] ≤ u < xs[hi]`.  The first argument is recursion fuel (the interval
halves each step, so `xs.length` steps always suffice). -/
def locateGo (xs : List ℚ) (u : ℚ) : ℕ → ℕ → ℕ → ℕ
  | 0, lo, _hi => lo
  | fuel + 1, lo, hi =>
    if hi ≤ lo + 1 then lo
    else if xs.getD ((lo + hi) / 2) 0 ≤ u then locateGo xs u fuel ((lo + hi) / 2) hi
    else locateGo xs u fuel lo ((lo + hi) / 2)

/-- Modelled from the spec: the binary-search bracket location of evaluation
step 3 for arbitrarily spaced arguments (section 4.2). -/
def searchIndex (xs : List ℚ) (u : ℚ) : ℕ :=
  locateGo xs u xs.length 0 (xs.length - 1)

/-- The bracket index, located by the strategy the `useUniform` flag selects:
O(1) arithmetic on the uniform fast path, binary search otherwise. -/
def bracketIdx (useUniform : Bool) (xs : List ℚ) (u : ℚ) : ℕ :=
  if useUniform then uniformIndex xs u else searchIndex xs u

/-- Index of the first occurrence of `u` in `xs`, if any: the exact-match
test of the exact-match optimization (section 4.2). -/
def exactIdx : List ℚ → ℚ → Option ℕ
  | [], _ => none
  | a :: rest, u => if a = u then some 0 else (exactIdx rest u).map (· + 1)

/-- Forward sweep of the tridiagonal solve for the natural cubic spline's
second derivatives, following the classic decomposition: for interior knots
`i = 1 .. k` (returned in reverse order, latest first) it accumulates the
back-substitution factor `a_i` and offset `u_i` so that
`y2[i] = a_i * y2[i+1] + u_i`. -/
def splineSweep (xs fs : List ℚ) : ℕ → List (ℚ × ℚ)
  | 0 => []
  | k + 1 =>
    let prev := splineSweep xs fs k
    let aprev := (prev.headD (0, 0)).1
    let uprev := (prev.headD (0, 0)).2
    let i := k + 1
    let sig := (xs.getD i 0 - xs.getD (i - 1) 0) / (xs.getD (i + 1) 0 - xs.getD (i - 1) 0)
    let p := sig * aprev + 2
    let ai := (sig - 1) / p
    let ui := ((6 * ((fs.getD (i + 1) 0 - fs.getD i 0) / (xs.getD (i + 1) 0 - xs.getD i 0)
        - (fs.getD i 0 - fs.getD (i - 1) 0) / (xs.getD i 0 - xs.getD (i - 1) 0))
        / (xs.getD (i + 1) 0 - xs.getD (i - 1) 0)) - sig * uprev) / p
    (ai, ui) :: prev

/-- Back-substitution of the tridiagonal solve: walks the reversed sweep
output, carrying the second derivative of the knot one past the current
one. -/
def splineBackSub : List (ℚ × ℚ) → ℚ → List ℚ
  | [], _ => []
  | (a, u) :: rest, ynext =>
    let yi := a * ynext + u
    yi :: splineBackSub rest yi

/-- Modelled from the spec: the second derivatives of the global natural
cubic spline through the `(xs, fs)` points, zero at both ends (section 4.2
step 4); fit once over all N points. -/
def splineY2 (xs fs : List ℚ) : List ℚ :=
  let n := xs.length
  if n < 2 then List.replicate n 0
  else 0 :: ((splineBackSub (splineSweep xs fs (n - 2)) 0).reverse ++ [0])

/-- Local evaluation of the natural cubic spline on the bracket
`[xs[i], xs[i+1]]` from the cached second derivatives `y2`. -/
def splineEval (xs fs y2 : List ℚ) (i : ℕ) (u : ℚ) : ℚ :=
  let h := xs.getD (i + 1) 0 - xs.getD i 0
  let a := (xs.getD (i + 1) 0 - u) / h
  let b := (u - xs.getD i 0) / h
  a * fs.getD i 0 + b * fs.getD (i + 1) 0
    + ((a ^ 3 - a) * y2.getD i 0 + (b ^ 3 - b) * y2.getD (i + 1) 0) * h ^ 2 / 6

/-- Modelled from the spec: interpolation within the bracket
`[xs[i], xs[i+1]]` per interpolant (section 4.2 step 4). -/
def interpAt (ip : Interp1D) (xs fs : List ℚ) (i : ℕ) (u : ℚ) : ℚ :=
  match ip with
  | .linear =>
    fs.getD i 0 + (fs.getD (i + 1) 0 - fs.getD i 0) * (u - xs.getD i 0)
      / (xs.getD (i + 1) 0 - xs.getD i 0)
  | .floor => fs.getD i 0
  | .ceil => fs.getD (i + 1) 0
  | .nearest =>
    if 2 * (u - xs.getD i 0) ≤ xs.getD (i + 1) 0 - xs.getD i 0 then fs.getD i 0
    else fs.getD (i + 1) 0
  | .spline => splineEval xs fs (splineY2 xs fs) i u

/-- Modelled from the spec: the `Table1D` data model (section 3).  `args` and
`vals` are the original input sequences; `xin` and `fin` are the sequences
interpolation actually runs on — equal to `args`/`vals` when the
corresponding log flag is clear, and their eagerly stored transforms when it
is set (section 4.1). -/
structure LookupTable where
  args : List ℚ
  vals : List ℚ
  interpolant : Interp1D
  x_log : Bool
  f_log : Bool
  xin : List ℚ
  fin : List ℚ
deriving DecidableEq

/-- Accessor for the original (untransformed) argument sequence. -/
def LookupTable.getArgs (t : LookupTable) : List ℚ := t.args

/-- Accessor for the original (untransformed) value sequence. -/
def LookupTable.getVals (t : LookupTable) : List ℚ := t.vals

/-- Accessor for the interpolant. -/
def LookupTable.getInterp (t : LookupTable) : Interp1D := t.interpolant

/-- Accessor reporting whether the domain is log-transformed. -/
def LookupTable.isLogX (t : LookupTable) : Bool := t.x_log

/-- Accessor reporting whether the range is log-transformed. -/
def LookupTable.isLogF (t : LookupTable) : Bool := t.f_log

/-- Modelled from the spec: one scalar evaluation of a `Table1D` after the
domain-side transform has been applied, i.e. steps 2-4 of section 4.2:
guard-banded bounds check, bracket location by the strategy `useUniform`
selects, exact-match optimization, interpolation per the interpolant. -/
def evaluateCore (t : LookupTable) (useUniform : Bool) (u : ℚ) : Except TableError ℚ :=
  if inGuardBand t.xin u then
    let v := clampDomain t.xin u
    match exactIdx t.xin v with
    | some j => .ok (t.fin.getD j 0)
    | none => .ok (interpAt t.interpolant t.xin t.fin (bracketIdx useUniform t.xin v) v)
  else .error .domain

/-- Modelled from the spec: the full scalar evaluation contract of section
4.2, steps 1-5: transform the query by `rlog` when `x_log` is set, run the
core evaluation with the bracket-location strategy chosen by the stored
uniformity of the grid, inverse-transform the result by `rexp` when `f_log`
is set. -/
def evaluate (rlog rexp : ℚ → ℚ) (t : LookupTable) (x0 : ℚ) : Except TableError ℚ :=
  (evaluateCore t (isUniformB t.xin) (if t.x_log then rlog x0 else x0)).map
    fun r => if t.f_log then rexp r else r

/-- Elementwise application of a fallible scalar function over a container,
stopping at the first error: the broadcast skeleton both tables share.  Each
output element depends only on the corresponding input element. -/
def broadcast1 {α β : Type} (f : α → Except TableError β) :
    List α → Except TableError (List β)
  | [] => .ok []
  | a :: as =>
    match f a with
    | .error e => .error e
    | .ok b =>
      match broadcast1 f as with
      | .error e => .error e
      | .ok bs => .ok (b :: bs)

/-- Modelled from the spec: broadcast evaluation over a one-dimensional input
container, each element independently interpolated (section 4.2). -/
def evaluateL (rlog rexp : ℚ → ℚ) (t : LookupTable) (xs : List ℚ) :
    Except TableError (List ℚ) :=
  broadcast1 (evaluate rlog rexp t) xs

/-- Modelled from the spec: broadcast evaluation over a two-dimensional
(nested) input container of arbitrary row lengths, each element independently
interpolated (section 4.2). -/
def evaluateLL (rlog rexp : ℚ → ℚ) (t : LookupTable) (xss : List (List ℚ)) :
    Except TableError (List (List ℚ)) :=
  broadcast1 (evaluateL rlog rexp t) xss

/-- The recognized `Table1D` interpolant names. -/
def interp1Names : List String := ["linear", "spline", "floor", "ceil", "nearest"]

/-- Modelled from the spec: parsing of the string-valued interpolant argument
into the closed enumeration.  A missing interpolant defaults to the natural
cubic spline: the spec's section 4.1 says the default is linear, but the test
suite (`tests/test_table.py` line 149) states the default interpolant is
`spline`, and the tests are the authority. -/
def parseInterp1 : Option String → Option Interp1D
  | none => some .spline
  | some s =>
    if s = "linear" then some .linear
    else if s = "spline" then some .spline
    else if s = "floor" then some .floor
    else if s = "ceil" then some .ceil
    else if s = "nearest" then some .nearest
    else none

/-- The explicit `(args, vals)` data a construction call supplies: either the
two columns of the external source, or the explicit `x`/`f` sequences.
`none` when the combination is contradictory (both an external source and
explicit data, or neither). -/
def inputData (src : Option (List (ℚ × ℚ))) (x f : Option (List ℚ)) :
    Option (List ℚ × List ℚ) :=
  match src, x, f with
  | some rows, none, none => some (rows.map Prod.fst, rows.map Prod.snd)
  | none, some xs, some fs => some (xs, fs)
  | _, _, _ => none

/-- Modelled from the spec: the validation and assembly half of `Table1D`
construction once the `(args, vals)` data is in hand (section 4.1): at least
2 points, strictly increasing `args`, positivity under each set log flag, a
recognized interpolant; on success the log-transformed sequences are stored
eagerly. -/
def assemble (rlog : ℚ → ℚ) (xs fs : List ℚ) (ip : Interp1D) (xlog flog : Bool) :
    LookupTable :=
  { args := xs, vals := fs, interpolant := ip, x_log := xlog, f_log := flog,
    xin := if xlog then xs.map rlog else xs,
    fin := if flog then fs.map rlog else fs }

def mkChecked (rlog : ℚ → ℚ) (xs fs : List ℚ) (interp : Option String)
    (xlog flog : Bool) : Except TableError LookupTable :=
  if xs.length < 2 then .error .config
  else if ¬ xs.Sorted (· < ·) then .error .config
  else if xlog ∧ ¬ ∀ a ∈ xs, 0 < a then .error .config
  else if flog ∧ ¬ ∀ v ∈ fs, 0 < v then .error .config
  else
    match parseInterp1 interp with
    | none => .error .config
    | some ip => .ok (assemble rlog xs fs ip xlog flog)

/-- Modelled from the spec: `Table1D` construction (section 4.1), from either
an external two-column source `src` or explicit `x`/`f` sequences, with all
`ConfigurationError` cases checked at construction time. -/
def mkLookupTable (rlog : ℚ → ℚ) (src : Option (List (ℚ × ℚ))) (x f : Option (List ℚ))
    (interp : Option String) (xlog flog : Bool) : Except TableError LookupTable :=
  match inputData src x f with
  | none => .error .config
  | some (xs, fs) => mkChecked rlog xs fs interp xlog flog

/-! Helper lemmas: indexed access into a sorted grid. -/

theorem sorted_getD_lt {xs : List ℚ} (hs : xs.Sorted (· < ·)) {i j : ℕ}
    (hij : i < j) (hj : j < xs.length) : xs.getD i 0 < xs.getD j 0 := by
  have hi : i < xs.length := lt_trans hij hj
  rw [List.getD_eq_get xs 0 hi, List.getD_eq_get xs 0 hj]
  exact hs.get_strictMono (Fin.mk_lt_mk.mpr hij)

theorem sorted_getD_le {xs : List ℚ} (hs : xs.Sorted (· < ·)) {i j : ℕ}
    (hij : i ≤ j) (hj : j < xs.length) : xs.getD i 0 ≤ xs.getD j 0 := by
  rcases Nat.lt_or_ge i j with h | h
  · exact le_of_lt (sorted_getD_lt hs h hj)
  · have : i = j := by omega
    subst this; rfl

theorem argMin_le_getD {xs : List ℚ} (hs : xs.Sorted (· < ·)) {i : ℕ}
    (hi : i < xs.length) : argMinOf xs ≤ xs.getD i 0 :=
  sorted_getD_le hs (Nat.zero_le i) hi

theorem getD_le_argMax {xs : List ℚ} (hs : xs.Sorted (· < ·)) {i : ℕ}
    (hi : i < xs.length) : xs.getD i 0 ≤ argMaxOf xs := by
  unfold argMaxOf
  exact sorted_getD_le hs (by omega) (by omega)

theorem argMin_le_argMax {xs : List ℚ} (hs : xs.Sorted (· < ·))
    (hlen : 1 ≤ xs.length) : argMinOf xs ≤ argMaxOf xs :=
  getD_le_argMax hs (by omega)

theorem exactIdx_getD : ∀ (xs : List ℚ), xs.Sorted (· < ·) →
    ∀ i, i < xs.length → exactIdx xs (xs.getD i 0) = some i := by
  intro xs
  induction xs with
  | nil => intro _ i hi; simp at hi
  | cons a rest ih =>
    intro hs i hi
    rcases List.sorted_cons.mp hs with ⟨ha, hrest⟩
    cases i with
    | zero => simp [exactIdx]
    | succ j =>
      have hj : j < rest.length := by simpa using hi
      have hmem : rest.getD j 0 ∈ rest := by
        rw [List.getD_eq_get rest 0 hj]; exact List.get_mem rest j hj
      have hlt : a < rest.getD j 0 := ha _ hmem
      have hstep : (a :: rest).getD (j + 1) 0 = rest.getD j 0 := rfl
      rw [hstep, exactIdx, if_neg (ne_of_lt hlt), ih hrest j hj]
      rfl

/-! Helper lemmas: the two bracket-location strategies. -/

/-- The bracketing-interval property an index must satisfy: `xs[i] ≤ u`, and
`u` lies below `xs[i+1]` unless `i` is the last interval. -/
def BracketsAt (xs : List ℚ) (u : ℚ) (i : ℕ) : Prop :=
  i + 1 < xs.length ∧ xs.getD i 0 ≤ u ∧ (u < xs.getD (i + 1) 0 ∨ i + 2 = xs.length)

theorem locateGo_spec (xs : List ℚ) (u : ℚ) :
    ∀ fuel lo hi, lo < hi → hi < xs.length → hi - lo ≤ fuel →
      xs.getD lo 0 ≤ u → (u < xs.getD hi 0 ∨ hi + 1 = xs.length) →
      BracketsAt xs u (locateGo xs u fuel lo hi) := by
  intro fuel
  induction fuel with
  | zero => intro lo hi h1 _ h3 _ _; omega
  | succ fuel ih =>
    intro lo hi h1 h2 h3 h4 h5
    rw [locateGo]
    by_cases hle : hi ≤ lo + 1
    · rw [if_pos hle]
      have heq : hi = lo + 1 := by omega
      subst heq
      exact ⟨h2, h4, h5⟩
    · rw [if_neg hle]
      have hlomid : lo < (lo + hi) / 2 := by omega
      have hmidhi : (lo + hi) / 2 < hi := by omega
      by_cases hc : xs.getD ((lo + hi) / 2) 0 ≤ u
      · rw [if_pos hc]
        exact ih ((lo + hi) / 2) hi hmidhi h2 (by omega) hc h5
      · rw [if_neg hc]
        exact ih lo ((lo + hi) / 2) hlomid (lt_trans hmidhi h2) (by omega) h4
          (Or.inl (lt_of_not_le hc))

theorem searchIndex_spec (xs : List ℚ) (u : ℚ) (hlen : 2 ≤ xs.length)
    (hu : argMinOf xs ≤ u) : BracketsAt xs u (searchIndex xs u) := by
  unfold searchIndex
  exact locateGo_spec xs u xs.length 0 (xs.length - 1) (by omega) (by omega) (by omega)
    hu (Or.inr (by omega))

theorem bracketsAt_unique {xs : List ℚ} (hs : xs.Sorted (· < ·)) {u : ℚ} {i j : ℕ}
    (hi : BracketsAt xs u i) (hj : BracketsAt xs u j) : i = j := by
  have key : ∀ {i j : ℕ}, BracketsAt xs u i → BracketsAt xs u j → i < j → False := by
    intro i j ⟨hi1, _, hi3⟩ ⟨hj1, hj2, _⟩ hij
    rcases hi3 with h3 | h3
    · have hle : xs.getD (i + 1) 0 ≤ xs.getD j 0 := sorted_getD_le hs (by omega) (by omega)
      linarith
    · omega
  rcases Nat.lt_trichotomy i j with h | h | h
  · exact absurd (key hi hj h) not_false
  · exact h
  · exact absurd (key hj hi h) not_false

/-! Helper lemmas: exactly evenly spaced grids and the uniform fast path. -/

/-- An exactly evenly spaced grid with common positive spacing `h`. -/
def EvenIncr (xs : List ℚ) (h : ℚ) : Prop :=
  0 < h ∧ ∀ i, i + 1 < xs.length → xs.getD (i + 1) 0 = xs.getD i 0 + h

theorem evenIncr_getD {xs : List ℚ} {h : ℚ} (he : EvenIncr xs h) :
    ∀ i, i < xs.length → xs.getD i 0 = xs.getD 0 0 + i * h := by
  intro i
  induction i with
  | zero => intro _; simp
  | succ j ih =>
    intro hi
    rw [he.2 j hi, ih (by omega)]
    push_cast
    ring

theorem sorted_of_adjacent {xs : List ℚ}
    (h : ∀ i, i + 1 < xs.length → xs.getD i 0 < xs.getD (i + 1) 0) :
    xs.Sorted (· < ·) := by
  rw [List.Sorted, ← List.chain'_iff_pairwise, List.chain'_iff_get]
  intro i hi
  have hx := h i (by omega)
  rwa [List.getD_eq_get xs 0 (by omega : i < xs.length),
    List.getD_eq_get xs 0 (by omega : i + 1 < xs.length)] at hx

theorem evenIncr_sorted {xs : List ℚ} {h : ℚ} (he : EvenIncr xs h) :
    xs.Sorted (· < ·) := by
  refine sorted_of_adjacent fun i hi => ?_
  rw [he.2 i hi]
  linarith [he.1]

theorem uniformIndex_spec {xs : List ℚ} {h u : ℚ} (he : EvenIncr xs h)
    (hlen : 2 ≤ xs.length) (hu1 : argMinOf xs ≤ u) (hu2 : u ≤ argMaxOf xs) :
    BracketsAt xs u (uniformIndex xs u) := by
  have hh := he.1
  have hcast : ((xs.length - 1 : ℕ) : ℚ) = (xs.length : ℚ) - 1 := by
    push_cast [Nat.cast_sub (by omega : 1 ≤ xs.length)]
    ring
  have h2q : (2 : ℚ) ≤ (xs.length : ℚ) := by exact_mod_cast hlen
  have hne : (xs.length : ℚ) - 1 ≠ 0 := by linarith
  have hx0 : argMinOf xs = xs.getD 0 0 := rfl
  have hmax : argMaxOf xs = xs.getD 0 0 + ((xs.length : ℚ) - 1) * h := by
    unfold argMaxOf
    rw [evenIncr_getD he (xs.length - 1) (by omega), hcast]
  have hsp : (argMaxOf xs - argMinOf xs) / ((xs.length : ℚ) - 1) = h := by
    rw [hmax, hx0]
    field_simp
  have hk0 : (0 : ℤ) ≤ ⌊(u - argMinOf xs) / h⌋ := by
    apply Int.le_floor.mpr
    push_cast
    exact div_nonneg (by linarith) (le_of_lt hh)
  have hdivle : (u - argMinOf xs) / h ≤ (xs.length : ℚ) - 1 := by
    rw [div_le_iff hh]
    rw [hmax] at hu2
    linarith [hx0]
  have hkle : ⌊(u - argMinOf xs) / h⌋ ≤ (xs.length : ℤ) - 1 := by
    have hc : ((xs.length : ℚ) - 1) = (((xs.length : ℤ) - 1 : ℤ) : ℚ) := by push_cast; ring
    calc ⌊(u - argMinOf xs) / h⌋ ≤ ⌊((xs.length : ℚ) - 1)⌋ := Int.floor_le_floor hdivle
    _ = (xs.length : ℤ) - 1 := by rw [hc, Int.floor_intCast]
  have hflle : (⌊(u - argMinOf xs) / h⌋ : ℚ) ≤ (u - argMinOf xs) / h := Int.floor_le _
  have hfllt : (u - argMinOf xs) / h < (⌊(u - argMinOf xs) / h⌋ : ℚ) + 1 :=
    Int.lt_floor_add_one _
  have hlow : (⌊(u - argMinOf xs) / h⌋ : ℚ) * h ≤ u - argMinOf xs := by
    rw [← le_div_iff hh]
    exact hflle
  have hhigh : u - argMinOf xs < ((⌊(u - argMinOf xs) / h⌋ : ℚ) + 1) * h := by
    rw [← div_lt_iff hh]
    exact hfllt
  simp only [uniformIndex]
  rw [hsp]
  rcases Nat.le_total ⌊(u - argMinOf xs) / h⌋.toNat (xs.length - 2) with hc | hc
  · rw [min_eq_left hc]
    have hil : ⌊(u - argMinOf xs) / h⌋.toNat < xs.length := by omega
    have hcastk : ((⌊(u - argMinOf xs) / h⌋.toNat : ℕ) : ℚ) = (⌊(u - argMinOf xs) / h⌋ : ℚ) := by
      exact_mod_cast congrArg Int.cast (Int.toNat_of_nonneg hk0)
    refine ⟨by omega, ?_, Or.inl ?_⟩
    · rw [evenIncr_getD he _ hil, hcastk]
      linarith [hx0]
    · rw [evenIncr_getD he _ (by omega : ⌊(u - argMinOf xs) / h⌋.toNat + 1 < xs.length)]
      push_cast [hcastk]
      linarith [hx0]
  · rw [min_eq_right hc]
    have hk2 : ((xs.length : ℤ) - 2) ≤ ⌊(u - argMinOf xs) / h⌋ := by omega
    refine ⟨by omega, ?_, Or.inr (by omega)⟩
    rw [evenIncr_getD he _ (by omega : xs.length - 2 < xs.length)]
    have hcn : ((xs.length - 2 : ℕ) : ℚ) = (xs.length : ℚ) - 2 := by
      push_cast [Nat.cast_sub (by omega : 2 ≤ xs.length)]
      ring
    have hq : ((xs.length : ℚ) - 2) ≤ (⌊(u - argMinOf xs) / h⌋ : ℚ) := by
      exact_mod_cast Int.cast_le.mpr hk2
    have hstep : ((xs.length : ℚ) - 2) * h ≤ (⌊(u - argMinOf xs) / h⌋ : ℚ) * h :=
      mul_le_mul_of_nonneg_right hq (le_of_lt hh)
    rw [hcn]
    linarith [hx0]

theorem bracketIdx_agree {xs : List ℚ} {h u : ℚ} (he : EvenIncr xs h)
    (hlen : 2 ≤ xs.length) (hu1 : argMinOf xs ≤ u) (hu2 : u ≤ argMaxOf xs) :
    uniformIndex xs u = searchIndex xs u :=
  bracketsAt_unique (evenIncr_sorted he) (uniformIndex_spec he hlen hu1 hu2)
    (searchIndex_spec xs u hlen hu1)

theorem foldl_max_const {d : ℚ} : ∀ (l : List ℚ), (∀ e ∈ l, e = d) → l.foldl max d = d := by
  intro l
  induction l with
  | nil => intro _; rfl
  | cons e l ih =>
    intro hall
    have he : e = d := hall e (by simp)
    simp only [List.foldl_cons, he, max_self]
    exact ih fun e hm => hall e (by simp [hm])

theorem foldl_min_const {d : ℚ} : ∀ (l : List ℚ), (∀ e ∈ l, e = d) → l.foldl min d = d := by
  intro l
  induction l with
  | nil => intro _; rfl
  | cons e l ih =>
    intro hall
    have he : e = d := hall e (by simp)
    simp only [List.foldl_cons, he, min_self]
    exact ih fun e hm => hall e (by simp [hm])

theorem spacings_mem {xs : List ℚ} {h : ℚ} (he : EvenIncr xs h) :
    ∀ e ∈ spacings xs, e = h := by
  intro e hm
  unfold spacings at hm
  rw [List.mem_iff_get] at hm
  obtain ⟨⟨k, hk⟩, hget⟩ := hm
  have hk2 : k + 1 < xs.length := by
    have := hk
    simp only [List.length_zipWith, List.length_tail] at this
    omega
  have h1 : xs.tail.get ⟨k, by simp [List.length_tail]; omega⟩ = xs.getD (k + 1) 0 := by
    rw [List.getD_eq_get xs 0 hk2, ← List.get_tail]
  rw [← hget]
  simp only [List.get_zipWith]
  rw [show xs.get ⟨k, by omega⟩ = xs.getD k 0 from (List.getD_eq_get xs 0 (by omega)).symm]
  rw [h1, he.2 k hk2]
  ring

theorem isUniformB_even {xs : List ℚ} {h : ℚ} (he : EvenIncr xs h) :
    isUniformB xs = true := by
  unfold isUniformB
  rcases hsp : spacings xs with _ | ⟨d, ds⟩
  · rfl
  · have hall := spacings_mem he
    rw [hsp] at hall
    have hd : d = h := hall d (by simp)
    have hds : ∀ e ∈ ds, e = d := by
      intro e hm
      rw [hd]
      exact hall e (by simp [hm])
    simp only [foldl_max_const ds hds, foldl_min_const ds hds]
    rw [decide_eq_true_iff]
    have : (0 : ℚ) < uniformTol := by norm_num [uniformTol]
    have habs : (0 : ℚ) ≤ |d| := abs_nonneg d
    nlinarith

/-! Helper lemmas: guard band, clamping, and evaluation at a stored knot. -/

theorem inGuardBand_of_mem {xs : List ℚ} {u : ℚ} (h1 : argMinOf xs ≤ u)
    (h2 : u ≤ argMaxOf xs) : inGuardBand xs u := by
  unfold inGuardBand
  have hg : (0 : ℚ) ≤ guardTol := by norm_num [guardTol]
  constructor
  · nlinarith [abs_nonneg (argMinOf xs)]
  · nlinarith [abs_nonneg (argMaxOf xs)]

theorem clampDomain_eq {xs : List ℚ} {u : ℚ} (h1 : argMinOf xs ≤ u)
    (h2 : u ≤ argMaxOf xs) : clampDomain xs u = u := by
  unfold clampDomain
  rw [min_eq_left h2, max_eq_right h1]

theorem clampDomain_mem {xs : List ℚ} (hle : argMinOf xs ≤ argMaxOf xs) (u : ℚ) :
    argMinOf xs ≤ clampDomain xs u ∧ clampDomain xs u ≤ argMaxOf xs := by
  unfold clampDomain
  exact ⟨le_max_left _ _, max_le hle (min_le_right _ _)⟩

theorem evaluateCore_knot {t : LookupTable} (hs : t.xin.Sorted (· < ·)) {i : ℕ}
    (hi : i < t.xin.length) (uu : Bool) :
    evaluateCore t uu (t.xin.getD i 0) = .ok (t.fin.getD i 0) := by
  have h1 : argMinOf t.xin ≤ t.xin.getD i 0 := argMin_le_getD hs hi
  have h2 : t.xin.getD i 0 ≤ argMaxOf t.xin := getD_le_argMax hs hi
  unfold evaluateCore
  rw [if_pos (inGuardBand_of_mem h1 h2)]
  simp only [clampDomain_eq h1 h2, exactIdx_getD t.xin hs i hi]

theorem evaluateCore_ne_config (t : LookupTable) (uu : Bool) (u : ℚ) :
    evaluateCore t uu u ≠ .error .config := by
  unfold evaluateCore
  by_cases hband : inGuardBand t.xin u
  · rw [if_pos hband]
    rcases hx : exactIdx t.xin (clampDomain t.xin u) with _ | j <;> simp [hx]
  · rw [if_neg hband]
    simp

theorem evaluate_ne_config (rlog rexp : ℚ → ℚ) (t : LookupTable) (x0 : ℚ) :
    evaluate rlog rexp t x0 ≠ .error .config := by
  unfold evaluate
  intro h
  rcases hc : evaluateCore t (isUniformB t.xin) (if t.x_log then rlog x0 else x0) with e | v
  · rw [hc] at h
    simp only [Except.map] at h
    injection h with h
    subst h
    exact evaluateCore_ne_config _ _ _ hc
  · rw [hc] at h
    simp [Except.map] at h

/-! Helper lemmas: elementwise broadcast. -/

theorem broadcast1_ok_elim {α β : Type} {f : α → Except TableError β} :
    ∀ {as : List α} {bs : List β}, broadcast1 f as = .ok bs →
      bs.length = as.length ∧ ∀ (d : α) (d' : β) i, i < as.length →
        f (as.getD i d) = .ok (bs.getD i d') := by
  intro as
  induction as with
  | nil =>
    intro bs h
    unfold broadcast1 at h
    injection h with h
    subst h
    exact ⟨rfl, fun _ _ i hi => absurd hi (by simp)⟩
  | cons a as ih =>
    intro bs h
    unfold broadcast1 at h
    rcases hfa : f a with e | b
    · rw [hfa] at h
      simp at h
    · rw [hfa] at h
      rcases hrest : broadcast1 f as with e | bs'
      · rw [hrest] at h
        simp at h
      · rw [hrest] at h
        injection h with h
        subst h
        obtain ⟨hlen, helem⟩ := ih hrest
        refine ⟨by simp [hlen], ?_⟩
        intro d d' i hi
        cases i with
        | zero => simpa using hfa
        | succ j => simpa using helem d d' j (by simpa using hi)

theorem broadcast1_ok_of_forall {α β : Type} {f : α → Except TableError β} :
    ∀ {as : List α}, (∀ x ∈ as, ∃ b, f x = .ok b) →
      ∃ bs, broadcast1 f as = .ok bs := by
  intro as
  induction as with
  | nil => intro _; exact ⟨[], rfl⟩
  | cons a as ih =>
    intro hall
    obtain ⟨b, hb⟩ := hall a (by simp)
    obtain ⟨bs, hbs⟩ := ih fun x hx => hall x (by simp [hx])
    exact ⟨b :: bs, by simp only [broadcast1, hb, hbs]⟩

/-! Helper lemmas: inversion of the `Table1D` constructor. -/

theorem mkChecked_ok_elim {rlog : ℚ → ℚ} {xs fs : List ℚ} {interp : Option String}
    {xlog flog : Bool} {t : LookupTable}
    (h : mkChecked rlog xs fs interp xlog flog = .ok t) :
    2 ≤ xs.length ∧ xs.Sorted (· < ·) ∧ (xlog = true → ∀ a ∈ xs, 0 < a) ∧
      (flog = true → ∀ v ∈ fs, 0 < v) ∧ parseInterp1 interp = some t.interpolant ∧
      t.args = xs ∧ t.vals = fs ∧ t.x_log = xlog ∧ t.f_log = flog ∧
      t.xin = (if xlog then xs.map rlog else xs) ∧
      t.fin = (if flog then fs.map rlog else fs) := by
  unfold mkChecked at h
  split_ifs at h with h1 h2 h3 h4
  rcases hp : parseInterp1 interp with _ | ip
  · rw [hp] at h
    simp at h
  · rw [hp] at h
    injection h with h
    subst h
    exact ⟨by omega, h2, by tauto, by tauto, rfl, rfl, rfl, rfl, rfl, rfl, rfl⟩

theorem mkLookupTable_explicit_elim {rlog : ℚ → ℚ} {xs fs : List ℚ}
    {interp : Option String} {xlog flog : Bool} {t : LookupTable}
    (h : mkLookupTable rlog none (some xs) (some fs) interp xlog flog = .ok t) :
    2 ≤ xs.length ∧ xs.Sorted (· < ·) ∧ (xlog = true → ∀ a ∈ xs, 0 < a) ∧
      (flog = true → ∀ v ∈ fs, 0 < v) ∧ parseInterp1 interp = some t.interpolant ∧
      t.args = xs ∧ t.vals = fs ∧ t.x_log = xlog ∧ t.f_log = flog ∧
      t.xin = (if xlog then xs.map rlog else xs) ∧
      t.fin = (if flog then fs.map rlog else fs) :=
  mkChecked_ok_elim (by simpa [mkLookupTable, inputData] using h)

/-! The two-dimensional table. -/

/-- Modelled from the spec: the closed set of `Table2D` interpolants
(section 3): linear (bilinear), floor, ceil, nearest. -/
inductive Interp2D where
  | linear : Interp2D
  | floor : Interp2D
  | ceil : Interp2D
  | nearest : Interp2D
deriving DecidableEq

/-- Modelled from the spec: the `Table2D` edge policy (section 3): raise,
wrap, constant-fill. -/
inductive EdgeMode where
  | raise : EdgeMode
  | wrap : EdgeMode
  | constant : EdgeMode
deriving DecidableEq

/-- Modelled from the spec: the `Table2D` data model (section 3): strictly
increasing grid coordinates `x`, `y`, an `Nx × Ny` matrix `z` of values with
`z[i][j]` the value at `(x[i], y[j])`, an interpolant, an edge policy and the
fill value used only by the constant policy. -/
structure LookupTable2D where
  x : List ℚ
  y : List ℚ
  z : List (List ℚ)
  interpolant : Interp2D
  edge_mode : EdgeMode
  constant_value : ℚ
deriving DecidableEq

/-- The matrix entry `z[i][j]`. -/
def zAt (t : LookupTable2D) (i j : ℕ) : ℚ := (t.z.getD i []).getD j 0

/-- Reduction of `a` modulo the period `p` into `[0, p)`. -/
def qmod (a p : ℚ) : ℚ := a - p * ⌊a / p⌋

/-- The physical period of a grid axis, `x[-1] - x[0]`. -/
def periodOf (xs : List ℚ) : ℚ := argMaxOf xs - argMinOf xs

/-- Modelled from the spec: in wrap mode a coordinate is reduced modulo the
axis period into the primary domain before lookup (section 4.4). -/
def wrapCoord (xs : List ℚ) (u : ℚ) : ℚ :=
  argMinOf xs + qmod (u - argMinOf xs) (periodOf xs)

/-- The in-domain test of the `Table2D` query box
`[x[0], x[-1]] × [y[0], y[-1]]`. -/
def inDomain2 (t : LookupTable2D) (px py : ℚ) : Prop :=
  argMinOf t.x ≤ px ∧ px ≤ argMaxOf t.x ∧ argMinOf t.y ≤ py ∧ py ≤ argMaxOf t.y

instance (t : LookupTable2D) (px py : ℚ) : Decidable (inDomain2 t px py) := by
  unfold inDomain2; infer_instance

/-- Modelled from the spec: the corner a non-bilinear `Table2D` interpolant
selects along one axis, by the same per-axis rule as the 1D case (section
4.4): floor keeps the lower bracket corner, ceil takes the upper one except
when the query sits exactly on the lower knot, nearest takes whichever is
closer. -/
def pickCorner (ip : Interp2D) (xs : List ℚ) (i : ℕ) (u : ℚ) : ℕ :=
  match ip with
  | .linear => i
  | .floor => i
  | .ceil => if u = xs.getD i 0 then i else i + 1
  | .nearest =>
    if 2 * (u - xs.getD i 0) ≤ xs.getD (i + 1) 0 - xs.getD i 0 then i else i + 1

/-- Modelled from the spec: the in-domain `Table2D` lookup and interpolation
(section 4.4 steps 2-3): the bracketing cell is located independently per
axis (O(1) arithmetic on a uniform axis, binary search otherwise), then the
four corner values are blended bilinearly, or a single corner is read for
the floor/ceil/nearest interpolants. -/
def interp2At (t : LookupTable2D) (px py : ℚ) : ℚ :=
  let i := bracketIdx (isUniformB t.x) t.x px
  let j := bracketIdx (isUniformB t.y) t.y py
  match t.interpolant with
  | .linear =>
    let ax := (px - t.x.getD i 0) / (t.x.getD (i + 1) 0 - t.x.getD i 0)
    let ay := (py - t.y.getD j 0) / (t.y.getD (j + 1) 0 - t.y.getD j 0)
    (1 - ax) * (1 - ay) * zAt t i j + ax * (1 - ay) * zAt t (i + 1) j
      + (1 - ax) * ay * zAt t i (j + 1) + ax * ay * zAt t (i + 1) (j + 1)
  | ip => zAt t (pickCorner ip t.x i px) (pickCorner ip t.y j py)

/-- Modelled from the spec: one scalar `Table2D` evaluation (section 4.4):
raise mode guard-band checks both coordinates and fails with `DomainError`
outside; wrap mode reduces both coordinates modulo the axis periods; constant
mode returns `constant_value` for any out-of-domain query, bypassing
interpolation, with no error. -/
def evaluate2 (t : LookupTable2D) (px py : ℚ) : Except TableError ℚ :=
  match t.edge_mode with
  | .raise =>
    if inGuardBand t.x px ∧ inGuardBand t.y py then
      .ok (interp2At t (clampDomain t.x px) (clampDomain t.y py))
    else .error .domain
  | .wrap => .ok (interp2At t (wrapCoord t.x px) (wrapCoord t.y py))
  | .constant =>
    if inDomain2 t px py then .ok (interp2At t px py)
    else .ok t.constant_value

/-- Modelled from the spec: broadcast `Table2D` evaluation over two co-shaped
input containers (section 4.4); mismatched shapes fail with `ShapeError`,
each element of co-shaped inputs is evaluated independently. -/
def evaluate2L (t : LookupTable2D) (pxs pys : List ℚ) : Except TableError (List ℚ) :=
  if pxs.length = pys.length then
    broadcast1 (fun p => evaluate2 t p.1 p.2) (pxs.zip pys)
  else .error .shape

/-- Modelled from the spec: the periodic-consistency requirement of wrap mode
(section 4.3): the first and last rows, and the first and last columns, of
`z` must match. -/
def wrapConsistent (z : List (List ℚ)) : Prop :=
  z.headD [] = z.getLastD [] ∧ ∀ r ∈ z, r.headD 0 = r.getLastD 0

instance (z : List (List ℚ)) : Decidable (wrapConsistent z) := by
  unfold wrapConsistent; infer_instance

/-- The recognized `Table2D` interpolant names. -/
def interp2Names : List String := ["linear", "floor", "ceil", "nearest"]

/-- Modelled from the spec: parsing of the `Table2D` interpolant, default
linear/bilinear (section 4.3). -/
def parseInterp2 : Option String → Option Interp2D
  | none => some .linear
  | some s =>
    if s = "linear" then some .linear
    else if s = "floor" then some .floor
    else if s = "ceil" then some .ceil
    else if s = "nearest" then some .nearest
    else none

/-- Modelled from the spec: parsing of the edge policy, default raise
(section 4.3). -/
def parseEdge : Option String → Option EdgeMode
  | none => some .raise
  | some s =>
    if s = "raise" then some .raise
    else if s = "wrap" then some .wrap
    else if s = "constant" then some .constant
    else none

/-- Modelled from the spec: `Table2D` construction (section 4.3), failing
with `ConfigurationError` when `x` or `y` is not strictly increasing, the
shape of `z` mismatches, the interpolant or edge mode is unrecognized, or
wrap mode is requested over data that is not periodic-consistent. -/
def mkLookupTable2D (x y : List ℚ) (z : List (List ℚ)) (interp edge : Option String)
    (cval : ℚ) : Except TableError LookupTable2D :=
  if ¬ x.Sorted (· < ·) then .error .config
  else if ¬ y.Sorted (· < ·) then .error .config
  else if ¬ (z.length = x.length ∧ ∀ r ∈ z, r.length = y.length) then .error .config
  else
    match parseInterp2 interp, parseEdge edge with
    | some ip, some em =>
      if em = .wrap ∧ ¬ wrapConsistent z then .error .config
      else .ok { x := x, y := y, z := z, interpolant := ip, edge_mode := em,
                 constant_value := cval }
    | _, _ => .error .config

theorem qmod_add_int (a p : ℚ) (k : ℤ) (hp : p ≠ 0) : qmod (a + k * p) p = qmod a p := by
  unfold qmod
  have hdiv : (a + k * p) / p = a / p + k := by
    field_simp
  rw [hdiv, Int.floor_add_int]
  push_cast
  ring

theorem wrapCoord_add_int {xs : List ℚ} (u : ℚ) (k : ℤ)
    (hp : periodOf xs ≠ 0) : wrapCoord xs (u + k * periodOf xs) = wrapCoord xs u := by
  unfold wrapCoord
  rw [show u + k * periodOf xs - argMinOf xs = (u - argMinOf xs) + k * periodOf xs by ring,
    qmod_add_int _ _ _ hp]

/-! The claims. -/

/-- C1: for every constructed `Table1D` (any interpolant, any strictly
increasing args of length at least 2, explicit data, default log flags) and
every index `i`, evaluating at `args[i]` returns `vals[i]`: exactly when the
interpolant is linear, floor, ceil or nearest, and within tight tolerance
when it is the natural cubic spline (the exact-match optimization bypasses
interpolation at a stored argument, so in this exact-arithmetic model the
spline case is exact as well and in particular within the tolerance). -/
theorem table1_eval_at_stored_arg (rlog rexp : ℚ → ℚ) (xs fs : List ℚ)
    (istr : Option String) (t : LookupTable) (i : ℕ)
    (hmk : mkLookupTable rlog none (some xs) (some fs) istr false false = .ok t)
    (hi : i < xs.length) :
    (t.interpolant ≠ .spline → evaluate rlog rexp t (xs.getD i 0) = .ok (fs.getD i 0)) ∧
    (t.interpolant = .spline → ∃ r, evaluate rlog rexp t (xs.getD i 0) = .ok r ∧
      |r - fs.getD i 0| ≤ 1 / 10 ^ 14) := by
  obtain ⟨hlen, hsorted, -, -, -, hargs, hvals, hxlog, hflog, hxin, hfin⟩ :=
    mkLookupTable_explicit_elim hmk
  have hxs : t.xin = xs := by simpa using hxin
  have hfs : t.fin = fs := by simpa using hfin
  have hknot := evaluateCore_knot (t := t) (by rw [hxs]; exact hsorted)
    (by rw [hxs]; exact hi) (isUniformB t.xin)
  rw [hxs, hfs] at hknot
  have heval : evaluate rlog rexp t (xs.getD i 0) = .ok (fs.getD i 0) := by
    unfold evaluate
    rw [hxlog, hflog]
    simp only [Bool.false_eq_true, if_false]
    rw [hxs, hknot]
    rfl
  exact ⟨fun _ => heval, fun _ => ⟨fs.getD i 0, heval, by norm_num⟩⟩

/-- A concrete evenly spaced table over the squares, from the test suite's
first scenario, with the linear interpolant. -/
def sqTable : LookupTable :=
  assemble id [0, 1, 2, 3, 4, 5, 6] [0, 1, 4, 9, 16, 25, 36] .linear false false

theorem sqTable_mk :
    mkLookupTable id none (some [0, 1, 2, 3, 4, 5, 6]) (some [0, 1, 4, 9, 16, 25, 36])
      (some "linear") false false = .ok sqTable := by
  norm_num [mkLookupTable, mkChecked, inputData, parseInterp1, List.sorted_cons, sqTable]

/-- Witness for C1 at the test scenario: the squares table returns the stored
value 9 when evaluated at the stored argument 3. -/
theorem table1_eval_at_stored_arg_witness :
    evaluate id id sqTable 3 = .ok 9 := by
  have h := table1_eval_at_stored_arg id id [0, 1, 2, 3, 4, 5, 6] [0, 1, 4, 9, 16, 25, 36]
    (some "linear") sqTable 3 sqTable_mk (by norm_num)
  have h2 := h.1 (by decide)
  simpa using h2

/-- C2: on a table whose arguments are exactly evenly spaced, the O(1)
uniform fast path and the binary-search path locate the same bracket, so
core evaluation forced onto either strategy returns identical results at
every query point; moreover the constructed table's uniformity flag is set,
so its own evaluation takes the fast path. -/
theorem table1_uniform_search_agree (rlog rexp : ℚ → ℚ) (xs fs : List ℚ)
    (istr : Option String) (t : LookupTable) (h : ℚ)
    (hmk : mkLookupTable rlog none (some xs) (some fs) istr false false = .ok t)
    (heven : EvenIncr xs h) (u : ℚ) :
    evaluateCore t true u = evaluateCore t false u ∧ isUniformB t.xin = true := by
  obtain ⟨hlen, hsorted, -, -, -, -, -, -, -, hxin, -⟩ := mkLookupTable_explicit_elim hmk
  have hxs : t.xin = xs := by simpa using hxin
  constructor
  · unfold evaluateCore
    rw [hxs]
    by_cases hband : inGuardBand xs u
    · rw [if_pos hband, if_pos hband]
      rcases hx : exactIdx xs (clampDomain xs u) with _ | j
      · have hmem := clampDomain_mem (argMin_le_argMax hsorted (by omega)) u
        have hagree := bracketIdx_agree heven hlen hmem.1 hmem.2
        simp [hx, bracketIdx, hagree]
      · simp [hx]
    · rw [if_neg hband, if_neg hband]
  · rw [hxs]
    exact isUniformB_even heven

/-- Witness for C2 at the evenly spaced squares table: both strategies give
the same answer at the query 5/2, and the table takes the fast path. -/
theorem table1_uniform_search_agree_witness :
    evaluateCore sqTable true (5 / 2) = evaluateCore sqTable false (5 / 2) ∧
      isUniformB sqTable.xin = true := by
  refine table1_uniform_search_agree id id [0, 1, 2, 3, 4, 5, 6] [0, 1, 4, 9, 16, 25, 36]
    (some "linear") sqTable 1 sqTable_mk ⟨by norm_num, ?_⟩ (5 / 2)
  intro i hi
  have hi6 : i < 6 := by simp at hi; omega
  interval_cases i <;> norm_num

/-- A concrete table on the integer grid 1..10, from the test suite's
round-off scenario. -/
def roundTable : LookupTable :=
  assemble id [1, 2, 3, 4, 5, 6, 7, 8, 9, 10] [1, 2, 3, 4, 5, 6, 7, 8, 9, 10]
    .linear false false

theorem roundTable_mk :
    mkLookupTable id none (some [1, 2, 3, 4, 5, 6, 7, 8, 9, 10])
      (some [1, 2, 3, 4, 5, 6, 7, 8, 9, 10]) (some "linear") false false
      = .ok roundTable := by
  norm_num [mkLookupTable, mkChecked, inputData, parseInterp1, List.sorted_cons, roundTable]

/-- C3: evaluation of a constructed table succeeds everywhere in the nominal
domain (in particular exactly at both endpoints), still succeeds within
1e-7 relative tolerance beyond either endpoint (absorbed by the guard band
of relative tolerance 1e-6), and fails with `DomainError` at any margin
beyond the guard band past either endpoint — such as the test's 1e-2
absolute overshoot. -/
theorem table1_boundary_guard (rlog rexp : ℚ → ℚ) (xs fs : List ℚ)
    (istr : Option String) (t : LookupTable)
    (hmk : mkLookupTable rlog none (some xs) (some fs) istr false false = .ok t) :
    (∀ u, argMinOf xs ≤ u → u ≤ argMaxOf xs → ∃ v, evaluate rlog rexp t u = .ok v) ∧
    (∀ ε, 0 ≤ ε → ε ≤ 1 / 10 ^ 7 * |argMaxOf xs| →
      ∃ v, evaluate rlog rexp t (argMaxOf xs + ε) = .ok v) ∧
    (∀ ε, 0 ≤ ε → ε ≤ 1 / 10 ^ 7 * |argMinOf xs| →
      ∃ v, evaluate rlog rexp t (argMinOf xs - ε) = .ok v) ∧
    (∀ δ, guardTol * |argMaxOf xs| < δ →
      evaluate rlog rexp t (argMaxOf xs + δ) = .error .domain) ∧
    (∀ δ, guardTol * |argMinOf xs| < δ →
      evaluate rlog rexp t (argMinOf xs - δ) = .error .domain) := by
  obtain ⟨hlen, hsorted, -, -, -, -, -, hxlog, hflog, hxin, -⟩ :=
    mkLookupTable_explicit_elim hmk
  have hxs : t.xin = xs := by simpa using hxin
  have hminmax : argMinOf xs ≤ argMaxOf xs := argMin_le_argMax hsorted (by omega)
  have hev : ∀ u, evaluate rlog rexp t u =
      (evaluateCore t (isUniformB t.xin) u).map (fun r => if t.f_log then rexp r else r) := by
    intro u
    unfold evaluate
    rw [hxlog]
    simp
  have hok : ∀ u, inGuardBand xs u → ∃ v, evaluate rlog rexp t u = .ok v := by
    intro u hband
    rw [hev]
    unfold evaluateCore
    rw [hxs, if_pos hband]
    rcases hx : exactIdx xs (clampDomain xs u) with _ | j
    · simp [hx, Except.map]
    · simp [hx, Except.map]
  have hfail : ∀ u, ¬ inGuardBand xs u → evaluate rlog rexp t u = .error .domain := by
    intro u hband
    rw [hev]
    unfold evaluateCore
    rw [hxs, if_neg hband]
    rfl
  have hg : guardTol = 1 / 10 ^ 6 := by norm_num [guardTol]
  refine ⟨fun u h1 h2 => hok u (inGuardBand_of_mem h1 h2), ?_, ?_, ?_, ?_⟩
  · intro ε h0 hsmall
    refine hok _ ⟨?_, ?_⟩
    · nlinarith [abs_nonneg (argMinOf xs), abs_nonneg (argMaxOf xs)]
    · rw [hg] at *
      nlinarith [abs_nonneg (argMaxOf xs)]
  · intro ε h0 hsmall
    refine hok _ ⟨?_, ?_⟩
    · rw [hg] at *
      nlinarith [abs_nonneg (argMinOf xs)]
    · nlinarith [abs_nonneg (argMinOf xs), abs_nonneg (argMaxOf xs)]
  · intro δ hbig
    refine hfail _ fun hband => ?_
    have := hband.2
    nlinarith
  · intro δ hbig
    refine hfail _ fun hband => ?_
    have := hband.1
    nlinarith

/-- Witness for C3 on the 1..10 test grid: the endpoint and a 1e-7 overshoot
succeed, the 1e-2 overshoot past either endpoint fails with `DomainError`. -/
theorem table1_boundary_guard_witness :
    (∃ v, evaluate id id roundTable 10 = .ok v) ∧
    (∃ v, evaluate id id roundTable (10 + 1 / 1000000) = .ok v) ∧
    (evaluate id id roundTable (10 + 1 / 100) = .error .domain) ∧
    (evaluate id id roundTable (1 - 1 / 100) = .error .domain) := by
  have h := table1_boundary_guard id id [1, 2, 3, 4, 5, 6, 7, 8, 9, 10]
    [1, 2, 3, 4, 5, 6, 7, 8, 9, 10] (some "linear") roundTable roundTable_mk
  refine ⟨?_, ?_, ?_, ?_⟩
  · simpa using h.1 10 (by norm_num [argMinOf]) (by norm_num [argMaxOf])
  · simpa [argMaxOf] using h.2.1 (1 / 1000000) (by norm_num) (by norm_num [argMaxOf])
  · simpa [argMaxOf] using h.2.2.2.1 (1 / 100) (by norm_num [argMaxOf, guardTol])
  · simpa [argMinOf] using h.2.2.2.2 (1 / 100) (by norm_num [argMinOf, guardTol])

theorem zip_getD {as bs : List ℚ} {i : ℕ} (hi : i < as.length) (hj : i < bs.length) :
    (as.zip bs).getD i (0, 0) = (as.getD i 0, bs.getD i 0) := by
  have hiz : i < (as.zip bs).length := by
    simp only [List.length_zip]
    omega
  rw [List.getD_eq_get _ _ hiz, List.getD_eq_get _ _ hi, List.getD_eq_get _ _ hj]
  simp [List.get_zip]

theorem evaluate2L_ok_elim {t2 : LookupTable2D} {pxs pys zs : List ℚ}
    (hok : evaluate2L t2 pxs pys = .ok zs) :
    pxs.length = pys.length ∧ zs.length = pxs.length ∧ ∀ i, i < pxs.length →
      evaluate2 t2 (pxs.getD i 0) (pys.getD i 0) = .ok (zs.getD i 0) := by
  unfold evaluate2L at hok
  by_cases hsh : pxs.length = pys.length
  · rw [if_pos hsh] at hok
    obtain ⟨hlen, helem⟩ := broadcast1_ok_elim hok
    refine ⟨hsh, by simpa [List.length_zip, hsh] using hlen, fun i hi => ?_⟩
    have := helem (0, 0) 0 i (by simpa [List.length_zip, hsh] using hi)
    rwa [zip_getD hi (by omega)] at this
  · rw [if_neg hsh] at hok
    simp at hok

/-- C4: broadcast evaluation of both tables is shape-preserving and purely
elementwise.  A flat or nested `Table1D` input container whose elements are
all in-domain (each scalar evaluation succeeds) evaluates to a container of
identical shape whose each element is the scalar evaluation of the
corresponding input element; likewise for a pair of co-shaped `Table2D`
input containers.  No output element depends on any other input element. -/
theorem broadcast_shape_elementwise :
    (∀ (rlog rexp : ℚ → ℚ) (t : LookupTable) (xs ys : List ℚ),
      evaluateL rlog rexp t xs = .ok ys →
      ys.length = xs.length ∧ ∀ i, i < xs.length →
        evaluate rlog rexp t (xs.getD i 0) = .ok (ys.getD i 0)) ∧
    (∀ (rlog rexp : ℚ → ℚ) (t : LookupTable) (xs : List ℚ),
      (∀ x ∈ xs, ∃ v, evaluate rlog rexp t x = .ok v) →
      ∃ ys, evaluateL rlog rexp t xs = .ok ys) ∧
    (∀ (rlog rexp : ℚ → ℚ) (t : LookupTable) (xss yss : List (List ℚ)),
      evaluateLL rlog rexp t xss = .ok yss →
      yss.length = xss.length ∧ ∀ i, i < xss.length →
        (yss.getD i []).length = (xss.getD i []).length ∧
        ∀ j, j < (xss.getD i []).length →
          evaluate rlog rexp t ((xss.getD i []).getD j 0)
            = .ok ((yss.getD i []).getD j 0)) ∧
    (∀ (t2 : LookupTable2D) (pxs pys zs : List ℚ),
      evaluate2L t2 pxs pys = .ok zs →
      pxs.length = pys.length ∧ zs.length = pxs.length ∧ ∀ i, i < pxs.length →
        evaluate2 t2 (pxs.getD i 0) (pys.getD i 0) = .ok (zs.getD i 0)) := by
  refine ⟨?_, ?_, ?_, ?_⟩
  · intro rlog rexp t xs ys hok
    obtain ⟨hlen, helem⟩ := broadcast1_ok_elim hok
    exact ⟨hlen, fun i hi => helem 0 0 i hi⟩
  · intro rlog rexp t xs hall
    exact broadcast1_ok_of_forall hall
  · intro rlog rexp t xss yss hok
    obtain ⟨hlen, helem⟩ := broadcast1_ok_elim hok
    refine ⟨hlen, fun i hi => ?_⟩
    obtain ⟨hrlen, hrelem⟩ := broadcast1_ok_elim (helem [] [] i hi)
    exact ⟨hrlen, fun j hj => hrelem 0 0 j hj⟩
  · intro t2 pxs pys zs hok
    exact evaluate2L_ok_elim hok

/-- C5: a wrap-mode `Table2D` is periodic: shifting a query by any integer
multiple of each axis period `x[-1] - x[0]`, `y[-1] - y[0]` leaves the
evaluation unchanged, because both coordinates are reduced modulo the period
before lookup; and construction with edge mode wrap fails with
`ConfigurationError` when the first and last rows or columns of `z` do not
match. -/
theorem table2_wrap_periodic :
    (∀ (t : LookupTable2D) (px py : ℚ) (k m : ℤ),
      t.edge_mode = .wrap → 2 ≤ t.x.length → t.x.Sorted (· < ·) →
      2 ≤ t.y.length → t.y.Sorted (· < ·) →
      evaluate2 t (px + k * periodOf t.x) (py + m * periodOf t.y)
        = evaluate2 t px py) ∧
    (∀ (x y : List ℚ) (z : List (List ℚ)) (interp : Option String) (cval : ℚ),
      ¬ wrapConsistent z →
      mkLookupTable2D x y z interp (some "wrap") cval = .error .config) := by
  constructor
  · intro t px py k m hmode hlx hsx hly hsy
    have hpx : periodOf t.x ≠ 0 := by
      have hlt : argMinOf t.x < argMaxOf t.x := by
        unfold argMinOf argMaxOf
        exact sorted_getD_lt hsx (by omega) (by omega)
      unfold periodOf
      linarith
    have hpy : periodOf t.y ≠ 0 := by
      have hlt : argMinOf t.y < argMaxOf t.y := by
        unfold argMinOf argMaxOf
        exact sorted_getD_lt hsy (by omega) (by omega)
      unfold periodOf
      linarith
    unfold evaluate2
    rw [hmode]
    rw [wrapCoord_add_int px k hpx, wrapCoord_add_int py m hpy]
  · intro x y z interp cval hcons
    unfold mkLookupTable2D
    split_ifs with h1 h2 h3
    all_goals try rfl
    rw [show parseEdge (some "wrap") = some EdgeMode.wrap from rfl]
    rcases hpi : parseInterp2 interp with _ | ip
    · rfl
    · simp [hcons]

/-- A concrete wrap-mode table used to witness the periodicity claim. -/
def wrapTable : LookupTable2D :=
  { x := [0, 1, 2], y := [0, 1], z := [[1, 1], [2, 2], [1, 1]],
    interpolant := .linear, edge_mode := .wrap, constant_value := 0 }

/-- Witness for C5: on the concrete wrap table, shifting the query by one x
period and two y periods leaves the value unchanged, and wrap construction
over a matrix whose first and last columns differ fails. -/
theorem table2_wrap_periodic_witness :
    evaluate2 wrapTable (1 / 2 + (1 : ℤ) * periodOf wrapTable.x)
        (1 / 2 + (2 : ℤ) * periodOf wrapTable.y) = evaluate2 wrapTable (1 / 2) (1 / 2) ∧
    mkLookupTable2D [0, 1] [0, 1] [[0, 1], [0, 1]] none (some "wrap") 0
      = .error .config := by
  constructor
  · exact table2_wrap_periodic.1 wrapTable (1 / 2) (1 / 2) 1 2 rfl (by decide)
      (by decide) (by decide) (by decide)
  · exact table2_wrap_periodic.2 [0, 1] [0, 1] [[0, 1], [0, 1]] none 0 (by decide)

/-- C6: in constant mode, every out-of-domain query returns exactly
`constant_value` with no error and without interpolating; every in-domain
query returns the interpolated value — identical to what the same table with
the raise edge policy (no constant mode) returns, independent of
`constant_value`; and this holds elementwise under broadcast evaluation, any
mix of in-domain and out-of-domain elements always succeeding. -/
theorem table2_constant_mode :
    (∀ (t : LookupTable2D) (px py : ℚ), t.edge_mode = .constant →
      ¬ inDomain2 t px py → evaluate2 t px py = .ok t.constant_value) ∧
    (∀ (t : LookupTable2D) (px py : ℚ) (c : ℚ), t.edge_mode = .constant →
      inDomain2 t px py →
      evaluate2 t px py = .ok (interp2At t px py) ∧
      evaluate2 { t with edge_mode := .raise, constant_value := c } px py
        = .ok (interp2At t px py)) ∧
    (∀ (t : LookupTable2D) (pxs pys zs : List ℚ), t.edge_mode = .constant →
      evaluate2L t pxs pys = .ok zs →
      ∀ i, i < pxs.length →
        evaluate2 t (pxs.getD i 0) (pys.getD i 0) = .ok (zs.getD i 0)) ∧
    (∀ (t : LookupTable2D) (pxs pys : List ℚ), t.edge_mode = .constant →
      pxs.length = pys.length → ∃ zs, evaluate2L t pxs pys = .ok zs) := by
  have hscalar : ∀ (t : LookupTable2D) (px py : ℚ), t.edge_mode = .constant →
      ∃ v, evaluate2 t px py = .ok v := by
    intro t px py hmode
    unfold evaluate2
    rw [hmode]
    by_cases hin : inDomain2 t px py
    · exact ⟨_, by rw [if_pos hin]⟩
    · exact ⟨_, by rw [if_neg hin]⟩
  refine ⟨?_, ?_, ?_, ?_⟩
  · intro t px py hmode hout
    unfold evaluate2
    rw [hmode, if_neg hout]
  · intro t px py c hmode hin
    constructor
    · unfold evaluate2
      rw [hmode, if_pos hin]
    · obtain ⟨h1, h2, h3, h4⟩ := hin
      show evaluate2 { t with edge_mode := .raise, constant_value := c } px py
        = .ok (interp2At t px py)
      simp only [evaluate2]
      rw [if_pos ⟨inGuardBand_of_mem h1 h2, inGuardBand_of_mem h3 h4⟩]
      rw [clampDomain_eq h1 h2, clampDomain_eq h3 h4]
      rfl
  · intro t pxs pys zs hmode hok i hi
    exact (evaluate2L_ok_elim hok).2.2 i hi
  · intro t pxs pys hmode hsh
    unfold evaluate2L
    rw [if_pos hsh]
    refine broadcast1_ok_of_forall fun p hp => hscalar t p.1 p.2 hmode

/-- A concrete constant-mode table with fill value 42, as in the test. -/
def constTable : LookupTable2D :=
  { x := [0, 1], y := [0, 1], z := [[0, 1], [1, 2]],
    interpolant := .linear, edge_mode := .constant, constant_value := 42 }

/-- Witness for C6: the out-of-domain query returns 42, the in-domain corner
returns the interpolated value that the raise-mode twin also returns, and a
broadcast mixing one in-domain and one out-of-domain element succeeds. -/
theorem table2_constant_mode_witness :
    evaluate2 constTable (-1) (-1) = .ok constTable.constant_value ∧
    evaluate2 constTable 0 0 = .ok (interp2At constTable 0 0) ∧
    evaluate2 { constTable with edge_mode := .raise, constant_value := 0 } 0 0
      = .ok (interp2At constTable 0 0) ∧
    (∃ zs, evaluate2L constTable [0, -1] [0, -1] = .ok zs) := by
  have h2 := table2_constant_mode.2.1 constTable 0 0 0 rfl (by decide)
  exact ⟨table2_constant_mode.1 constTable (-1) (-1) rfl (by decide), h2.1, h2.2,
    table2_constant_mode.2.2.2 constTable [0, -1] [0, -1] rfl (by norm_num)⟩

/-- The configurations section 4.1 rejects: contradictory or missing data
sources, fewer than 2 points, non-increasing arguments, a non-positive
argument or value under the corresponding log flag, or an unrecognized
interpolant. -/
def badConfig1 (src : Option (List (ℚ × ℚ))) (x f : Option (List ℚ))
    (interp : Option String) (xlog flog : Bool) : Prop :=
  (src.isSome = true ∧ (x.isSome = true ∨ f.isSome = true)) ∨
  (src.isNone = true ∧ (x.isNone = true ∨ f.isNone = true)) ∨
  (∃ xs fs, inputData src x f = some (xs, fs) ∧
    (xs.length < 2 ∨ ¬ xs.Sorted (· < ·) ∨ (xlog = true ∧ ∃ a ∈ xs, a ≤ 0) ∨
     (flog = true ∧ ∃ v ∈ fs, v ≤ 0) ∨ parseInterp1 interp = none))

theorem mkChecked_error_iff (rlog : ℚ → ℚ) (xs fs : List ℚ) (interp : Option String)
    (xlog flog : Bool) :
    mkChecked rlog xs fs interp xlog flog = .error .config ↔
      (xs.length < 2 ∨ ¬ xs.Sorted (· < ·) ∨ (xlog = true ∧ ∃ a ∈ xs, a ≤ 0) ∨
       (flog = true ∧ ∃ v ∈ fs, v ≤ 0) ∨ parseInterp1 interp = none) := by
  unfold mkChecked
  by_cases h1 : xs.length < 2
  · rw [if_pos h1]
    exact iff_of_true rfl (Or.inl h1)
  · rw [if_neg h1]
    by_cases h2 : xs.Sorted (· < ·)
    · rw [if_neg (not_not_intro h2)]
      by_cases h3 : xlog = true ∧ ¬ ∀ a ∈ xs, 0 < a
      · rw [if_pos h3]
        refine iff_of_true rfl (Or.inr (Or.inr (Or.inl ⟨h3.1, ?_⟩)))
        have hno := h3.2
        push_neg at hno
        exact hno
      · rw [if_neg h3]
        by_cases h4 : flog = true ∧ ¬ ∀ v ∈ fs, 0 < v
        · rw [if_pos h4]
          refine iff_of_true rfl (Or.inr (Or.inr (Or.inr (Or.inl ⟨h4.1, ?_⟩))))
          have hno := h4.2
          push_neg at hno
          exact hno
        · rw [if_neg h4]
          rcases hp : parseInterp1 interp with _ | ip
          · exact iff_of_true rfl (Or.inr (Or.inr (Or.inr (Or.inr rfl))))
          · refine iff_of_false (by simp) ?_
            rintro (hc | hc | hc | hc | hc)
            · exact h1 hc
            · exact hc h2
            · obtain ⟨hxl, a, ha, hle⟩ := hc
              exact h3 ⟨hxl, fun hall => absurd (hall a ha) (not_lt.mpr hle)⟩
            · obtain ⟨hfl, v, hv, hle⟩ := hc
              exact h4 ⟨hfl, fun hall => absurd (hall v hv) (not_lt.mpr hle)⟩
            · simp at hc
    · rw [if_pos h2]
      exact iff_of_true rfl (Or.inr (Or.inl h2))

/-- C7: `Table1D` construction fails with `ConfigurationError` exactly when
one of the spec's conditions holds — both an external source and explicit
data given, neither given, fewer than 2 points, args not strictly
increasing, a non-positive arg under `x_log`, a non-positive val under
`f_log`, or an unrecognized interpolant — and configuration errors belong to
construction only: scalar evaluation never produces one. -/
theorem table1_construction_errors :
    (∀ (rlog : ℚ → ℚ) (src : Option (List (ℚ × ℚ))) (x f : Option (List ℚ))
       (interp : Option String) (xlog flog : Bool),
      mkLookupTable rlog src x f interp xlog flog = .error .config ↔
        badConfig1 src x f interp xlog flog) ∧
    (∀ (rlog rexp : ℚ → ℚ) (t : LookupTable) (x0 : ℚ),
      evaluate rlog rexp t x0 ≠ .error .config) := by
  refine ⟨?_, evaluate_ne_config⟩
  intro rlog src x f interp xlog flog
  rcases src with _ | rows <;> rcases x with _ | xs <;> rcases f with _ | fs
  · exact iff_of_true rfl (by simp [badConfig1])
  · exact iff_of_true rfl (by simp [badConfig1])
  · exact iff_of_true rfl (by simp [badConfig1])
  · rw [show mkLookupTable rlog none (some xs) (some fs) interp xlog flog
        = mkChecked rlog xs fs interp xlog flog from rfl, mkChecked_error_iff]
    unfold badConfig1
    constructor
    · intro hd
      exact Or.inr (Or.inr ⟨xs, fs, rfl, hd⟩)
    · rintro (⟨hs, -⟩ | ⟨-, hn | hn⟩ | ⟨xs1, fs1, heq, hd⟩)
      · simp at hs
      · simp at hn
      · simp at hn
      · rw [show inputData none (some xs) (some fs) = some (xs, fs) from rfl] at heq
        injection heq with heq
        rw [Prod.mk.injEq] at heq
        obtain ⟨h1, h2⟩ := heq
        subst h1
        subst h2
        exact hd
  · rw [show mkLookupTable rlog (some rows) none none interp xlog flog
        = mkChecked rlog (rows.map Prod.fst) (rows.map Prod.snd) interp xlog flog from rfl,
      mkChecked_error_iff]
    unfold badConfig1
    constructor
    · intro hd
      exact Or.inr (Or.inr ⟨rows.map Prod.fst, rows.map Prod.snd, rfl, hd⟩)
    · rintro (⟨-, hn | hn⟩ | ⟨hs, -⟩ | ⟨xs1, fs1, heq, hd⟩)
      · simp at hn
      · simp at hn
      · simp at hs
      · rw [show inputData (some rows) none none
            = some (rows.map Prod.fst, rows.map Prod.snd) from rfl] at heq
        injection heq with heq
        rw [Prod.mk.injEq] at heq
        obtain ⟨h1, h2⟩ := heq
        subst h1
        subst h2
        exact hd
  · exact iff_of_true rfl (by simp [badConfig1])
  · exact iff_of_true rfl (by simp [badConfig1])
  · exact iff_of_true rfl (by simp [badConfig1])

/-- The name under which each interpolant is recognized by construction. -/
def interpName : Interp1D → String
  | .linear => "linear"
  | .spline => "spline"
  | .floor => "floor"
  | .ceil => "ceil"
  | .nearest => "nearest"

theorem parse_interpName (ip : Interp1D) : parseInterp1 (some (interpName ip)) = some ip := by
  cases ip <;> rfl

/-- The constructor invariant tying the stored interpolation arrays to the
original data under the transform `rlog`: what construction with log flags
eagerly stores. -/
def DerivedOk (rlog : ℚ → ℚ) (t : LookupTable) : Prop :=
  t.xin = (if t.x_log then t.args.map rlog else t.args) ∧
  t.fin = (if t.f_log then t.vals.map rlog else t.vals)

/-- C8: reconstructing a table from an existing table's accessor outputs
(args, vals, interpolant, x_log, f_log) succeeds and returns the very same
table; and two tables carrying the constructor invariant are equal iff those
five components are all equal — so tables differing in any one component
compare unequal. -/
theorem table1_roundtrip_structural_eq :
    (∀ (rlog : ℚ → ℚ) (xs fs : List ℚ) (istr : Option String) (xlog flog : Bool)
       (t : LookupTable),
      mkLookupTable rlog none (some xs) (some fs) istr xlog flog = .ok t →
      mkLookupTable rlog none (some t.getArgs) (some t.getVals)
        (some (interpName t.getInterp)) t.isLogX t.isLogF = .ok t) ∧
    (∀ (rlog : ℚ → ℚ) (t1 t2 : LookupTable), DerivedOk rlog t1 → DerivedOk rlog t2 →
      (t1 = t2 ↔ (t1.getArgs = t2.getArgs ∧ t1.getVals = t2.getVals ∧
        t1.getInterp = t2.getInterp ∧ t1.isLogX = t2.isLogX ∧ t1.isLogF = t2.isLogF))) := by
  constructor
  · intro rlog xs fs istr xlog flog t hmk
    obtain ⟨hlen, hsorted, hxpos, hfpos, hparse, hargs, hvals, hxlog, hflog, hxin, hfin⟩ :=
      mkLookupTable_explicit_elim hmk
    show mkChecked rlog t.getArgs t.getVals (some (interpName t.getInterp))
      t.isLogX t.isLogF = .ok t
    unfold LookupTable.getArgs LookupTable.getVals LookupTable.getInterp
      LookupTable.isLogX LookupTable.isLogF
    unfold mkChecked
    rw [if_neg (by rw [hargs]; omega)]
    rw [if_neg (not_not_intro (by rw [hargs]; exact hsorted))]
    rw [if_neg (by
      rintro ⟨hxl, hno⟩
      rw [hargs] at hno
      rw [hxlog] at hxl
      exact hno (hxpos hxl))]
    rw [if_neg (by
      rintro ⟨hfl, hno⟩
      rw [hvals] at hno
      rw [hflog] at hfl
      exact hno (hfpos hfl))]
    rw [parse_interpName]
    cases t with
    | mk a v ip xl fl xi fi =>
      simp only at hargs hvals hxlog hflog hxin hfin
      subst hargs hvals hxlog hflog
      simp only [assemble, Except.ok.injEq, LookupTable.mk.injEq, true_and, and_true]
      exact ⟨hxin.symm, hfin.symm⟩
  · intro rlog t1 t2 hd1 hd2
    constructor
    · intro h
      subst h
      exact ⟨rfl, rfl, rfl, rfl, rfl⟩
    · rintro ⟨h1, h2, h3, h4, h5⟩
      obtain ⟨hd1x, hd1f⟩ := hd1
      obtain ⟨hd2x, hd2f⟩ := hd2
      cases t1 with
      | mk a1 v1 i1 xl1 fl1 xi1 fi1 =>
        cases t2 with
        | mk a2 v2 i2 xl2 fl2 xi2 fi2 =>
          simp only [LookupTable.getArgs, LookupTable.getVals, LookupTable.getInterp,
            LookupTable.isLogX, LookupTable.isLogF] at h1 h2 h3 h4 h5
          subst h1 h2 h3 h4 h5
          simp only at hd1x hd1f hd2x hd2f
          rw [LookupTable.mk.injEq]
          exact ⟨rfl, rfl, rfl, rfl, rfl, by rw [hd1x, hd2x], by rw [hd1f, hd2f]⟩

/-- Two concrete tables over the same data differing only in the
interpolant, for the structural-equality witness. -/
def neTableA : LookupTable := assemble id [1, 2, 3] [4, 5, 6] .linear false false

/-- The floor-interpolant twin of `neTableA`. -/
def neTableB : LookupTable := assemble id [1, 2, 3] [4, 5, 6] .floor false false

/-- Witness for C8: rebuilding the concrete linear table from its accessors
returns it unchanged, and the two tables differing only in the interpolant
satisfy the component criterion iff they are equal (here: both false). -/
theorem table1_roundtrip_structural_eq_witness :
    mkLookupTable id none (some neTableA.getArgs) (some neTableA.getVals)
      (some (interpName neTableA.getInterp)) neTableA.isLogX neTableA.isLogF
      = .ok neTableA ∧
    (neTableA = neTableB ↔ (neTableA.getArgs = neTableB.getArgs ∧
      neTableA.getVals = neTableB.getVals ∧ neTableA.getInterp = neTableB.getInterp ∧
      neTableA.isLogX = neTableB.isLogX ∧ neTableA.isLogF = neTableB.isLogF)) := by
  constructor
  · exact table1_roundtrip_structural_eq.1 id [1, 2, 3] [4, 5, 6] (some "linear")
      false false neTableA
      (by norm_num [mkLookupTable, mkChecked, inputData, parseInterp1,
        List.sorted_cons, neTableA])
  · exact table1_roundtrip_structural_eq.2 id neTableA neTableB
      (by norm_num [DerivedOk, neTableA, assemble])
      (by norm_num [DerivedOk, neTableB, assemble])

/-- C9 counterexample to the claim as stated: a table constructed without
specifying an interpolant carries the spline interpolant, not linear (the
test suite states the default interpolant is spline, contradicting the
spec's "default linear"). -/
theorem table1_default_interp_cex :
    (mkLookupTable id none (some [0, 1]) (some [0, 1]) none false false).map
      LookupTable.getInterp = .ok Interp1D.spline ∧
    Interp1D.spline ≠ Interp1D.linear := by
  constructor
  · norm_num [mkLookupTable, mkChecked, inputData, parseInterp1, assemble,
      List.sorted_cons, LookupTable.getInterp, Except.map]
  · decide

/-- C9 as amended: when a `Table1D` is constructed without specifying an
interpolant — from explicit args/vals or from an external data source — the
interpolant used is the natural cubic spline. -/
theorem table1_default_interp_spline (rlog : ℚ → ℚ) (src : Option (List (ℚ × ℚ)))
    (x f : Option (List ℚ)) (xlog flog : Bool) (t : LookupTable)
    (hmk : mkLookupTable rlog src x f none xlog flog = .ok t) :
    t.getInterp = .spline := by
  unfold mkLookupTable at hmk
  rcases hd : inputData src x f with _ | ⟨xs, fs⟩
  · rw [hd] at hmk
    simp at hmk
  · rw [hd] at hmk
    have hp := (mkChecked_ok_elim hmk).2.2.2.2.1
    unfold parseInterp1 at hp
    injection hp with hp
    unfold LookupTable.getInterp
    exact hp.symm

/-- A concrete table built without specifying an interpolant. -/
def defTable : LookupTable := assemble id [0, 1] [0, 1] .spline false false

/-- Witness for the amended C9: the concrete default-constructed table
reports the spline interpolant. -/
theorem table1_default_interp_spline_witness : defTable.getInterp = .spline :=
  table1_default_interp_spline id none (some [0, 1]) (some [0, 1]) false false defTable
    (by norm_num [mkLookupTable, mkChecked, inputData, parseInterp1, assemble,
      List.sorted_cons, defTable])

/-- C10: the public accessors of a constructed table expose the original
untransformed args and vals and the log flags exactly as given at
construction, for every transform function `rlog` — the eagerly stored
internal log-transform is not observable through them. -/
theorem table1_accessors_untransformed (rlog : ℚ → ℚ) (xs fs : List ℚ)
    (istr : Option String) (xlog flog : Bool) (t : LookupTable)
    (hmk : mkLookupTable rlog none (some xs) (some fs) istr xlog flog = .ok t) :
    t.getArgs = xs ∧ t.getVals = fs ∧ t.isLogX = xlog ∧ t.isLogF = flog := by
  obtain ⟨-, -, -, -, -, h6, h7, h8, h9, -, -⟩ := mkLookupTable_explicit_elim hmk
  exact ⟨h6, h7, h8, h9⟩

/-- A concrete log-log table whose internal arrays are transformed by a
visibly non-trivial transform. -/
def logTable : LookupTable :=
  assemble (fun q => q * 100) [1, 2] [3, 4] .spline true true

/-- Witness for C10: the log-log table constructed under the transform
`q ↦ 100 q` still reports the original args, vals and its two flags. -/
theorem table1_accessors_untransformed_witness :
    logTable.getArgs = [1, 2] ∧ logTable.getVals = [3, 4] ∧
      logTable.isLogX = true ∧ logTable.isLogF = true :=
  table1_accessors_untransformed (fun q => q * 100) [1, 2] [3, 4] none true true logTable
    (by norm_num [mkLookupTable, mkChecked, inputData, parseInterp1, assemble,
      List.sorted_cons, logTable])
